import Mathlib

/-!
# Verification of ghdump's cutoff pagination traversal

Shallow embedding of `ghdump.go` (functions `iterateIssues`,
`iteratePullRequests` and the identically-shaped exported variants
`IterateIssues`, `IteratePullRequests`): a paginated, time-bounded
traversal of a remote collection.

Modelling choices:
* `time.Time` instants are modelled as `Int`; Go's `t.Before(u)` is `t < u`.
* The pair (GitHub client, fixed list options) behind
  `client.Issues.ListByRepo(ctx, org, repo, &options)` is abstracted as a
  fetcher function `Nat → Except ε (List α × Nat)`: given the requested
  page number (`options.Page`, initially `0`, the Go zero value) it returns
  either an error or the page's items together with `response.NextPage`
  (`0` meaning "no further pages", exactly as the Go code tests).
* The Go `for {}` loop has no structural termination measure, so the
  embedding takes a fuel argument; `outcome = none` records that the fuel
  ran out before the loop finished, `outcome = some r` that the Go function
  returned `r` within that budget.
* The side-effecting callback `fn` is observed through its invocation
  trace: `visited` lists, in order, exactly the items `fn` was called on.
  `fetches` counts the `ListByRepo` / `List` remote calls made.
-/

namespace Ghdump

/-- `GitHubMaxItemsPerPage` from the source: `PerPage` sent with every
list request. -/
def GitHubMaxItemsPerPage : Nat := 100

/-- The fields of `github.User` the program reads (`*i.User.Login`,
`*i.User.HTMLURL`). -/
structure User where
  login : String
  htmlURL : String
deriving Repr, DecidableEq

/-- The fields of `github.Issue` the program reads. `createdAt` is the
`time.Time` creation instant, modelled as `Int`. -/
structure Issue where
  number : Nat
  title : String
  htmlURL : String
  user : User
  createdAt : Int
deriving Repr, DecidableEq

/-- The fields of `github.PullRequest` the program reads. -/
structure PullRequest where
  number : Nat
  title : String
  htmlURL : String
  user : User
  createdAt : Int
deriving Repr, DecidableEq

/-- Observable result of one traversal run: the callback invocation trace
(`visited`, in invocation order), the returned value (`some (.ok ())` for a
`nil` return, `some (.error e)` for an error return, `none` when the fuel
budget was exhausted before the loop ended), and the number of page
fetches performed. -/
structure IterResult (α : Type) (ε : Type) where
  visited : List α
  outcome : Option (Except ε Unit)
  fetches : Nat
deriving Repr

/-- The inner `for _, i := range items` loop body of `iterateIssues` /
`iteratePullRequests`: walk the page's items in order; at the first item
with `i.CreatedAt.Before(since)` stop (second component `true`, meaning
the Go code executed `return nil`); otherwise invoke the callback
(record the item) and continue. -/
def pageScan (created : α → Int) (since : Int) : List α → List α × Bool
  | [] => ([], false)
  | i :: rest =>
    if created i < since then ([], true)
    else
      let r := pageScan created since rest
      (i :: r.1, r.2)

/-- The outer `for {}` loop of `iterateIssues` / `iteratePullRequests`,
generic in the item type (the two Go functions are textually identical up
to that type). `f` is the fetcher (see module comment), `since` the cutoff,
`page` the current `options.Page`, `fuel` the loop-iteration budget. -/
def iterateSince (created : α → Int) (f : Nat → Except ε (List α × Nat))
    (since : Int) : Nat → Nat → IterResult α ε
  | 0, _ => ⟨[], none, 0⟩
  | fuel + 1, page =>
    match f page with
    | .error e => ⟨[], some (.error e), 1⟩
    | .ok (items, next) =>
      match pageScan created since items with
      | (visited, true) => ⟨visited, some (.ok ()), 1⟩
      | (visited, false) =>
        if next = 0 then ⟨visited, some (.ok ()), 1⟩
        else
          let r := iterateSince created f since fuel next
          ⟨visited ++ r.visited, r.outcome, r.fetches + 1⟩

/-- `iterateIssues` from the source, with the remote call abstracted as
the fetcher `f`. -/
def iterateIssues (f : Nat → Except ε (List Issue × Nat)) (since : Int)
    (fuel page : Nat) : IterResult Issue ε :=
  iterateSince Issue.createdAt f since fuel page

/-- `iteratePullRequests` from the source, with the remote call abstracted
as the fetcher `f`. -/
def iteratePullRequests (f : Nat → Except ε (List PullRequest × Nat))
    (since : Int) (fuel page : Nat) : IterResult PullRequest ε :=
  iterateSince PullRequest.createdAt f since fuel page

/-- A fetcher realising a concrete finite sequence of page responses:
requesting page `k` yields entry `k` of the list (an error, or the page's
items), and the reported `NextPage` links each page to the following entry,
with `0` ("no next page") on the last one. This is the shape of response
sequence the linear GitHub pagination produces. -/
def pagesFetcher (psE : List (Except ε (List α))) (page : Nat) :
    Except ε (List α × Nat) :=
  match psE[page]? with
  | none => .ok ([], 0)
  | some (.error e) => .error e
  | some (.ok items) =>
      .ok (items, if page + 1 < psE.length then page + 1 else 0)

/-- `pagesFetcher` specialised to an all-successful page sequence. -/
def okPagesFetcher (ps : List (List α)) : Nat → Except ε (List α × Nat) :=
  pagesFetcher (ps.map Except.ok)

/-- Structural-recursion companion of `iterateSince (pagesFetcher psE)`:
consume the remaining page responses in order. Used only to transfer
facts to the fuel-based embedding. -/
def pagesRun (created : α → Int) (since : Int) :
    List (Except ε (List α)) → IterResult α ε
  | [] => ⟨[], some (.ok ()), 0⟩
  | pg :: rest =>
    match pg with
    | .error e => ⟨[], some (.error e), 1⟩
    | .ok items =>
      match pageScan created since items with
      | (visited, true) => ⟨visited, some (.ok ()), 1⟩
      | (visited, false) =>
        match rest with
        | [] => ⟨visited, some (.ok ()), 1⟩
        | nxt :: more =>
          let r := pagesRun created since (nxt :: more)
          ⟨visited ++ r.visited, r.outcome, r.fetches + 1⟩

/-- Does following the next-page cursor chain from `page`, under fetcher
`f`, reach a response the loop does not continue past — an error, a page
holding an item older than the cutoff, or `NextPage = 0` — within `n`
fetches? -/
def chainEnds (created : α → Int) (f : Nat → Except ε (List α × Nat))
    (since : Int) : Nat → Nat → Bool
  | _, 0 => false
  | page, n + 1 =>
    match f page with
    | .error _ => true
    | .ok (items, next) =>
      (pageScan created since items).2 || next = 0
        || chainEnds created f since next n

/-! ## Helper lemmas -/

/-- `pageScan` visits exactly the longest prefix of new-enough items, and
reports a stop iff some item of the page is older than the cutoff. -/
theorem pageScan_eq (created : α → Int) (since : Int) (xs : List α) :
    pageScan created since xs =
      (xs.takeWhile (fun i => !decide (created i < since)),
       xs.any (fun i => decide (created i < since))) := by
  induction xs with
  | nil => rfl
  | cons i rest ih =>
    by_cases h : created i < since
    · simp [pageScan, h, List.takeWhile_cons]
    · simp [pageScan, h, List.takeWhile_cons, ih]

theorem takeWhile_of_forall {p : α → Bool} :
    ∀ {xs : List α}, (∀ i ∈ xs, p i = true) → xs.takeWhile p = xs
  | [], _ => rfl
  | i :: rest, h => by
    have hi : p i = true := h i (List.mem_cons_self i rest)
    have hr := takeWhile_of_forall (fun j hj => h j (List.mem_cons_of_mem i hj))
    simp [List.takeWhile_cons, hi, hr]

theorem takeWhile_eq_nil_of_forall {p : α → Bool} :
    ∀ {xs : List α}, (∀ i ∈ xs, p i = false) → xs.takeWhile p = []
  | [], _ => rfl
  | i :: rest, h => by
    have hi : p i = false := h i (List.mem_cons_self i rest)
    simp [List.takeWhile_cons, hi]

theorem takeWhile_append_of_forall {p : α → Bool} (ys : List α) :
    ∀ {xs : List α}, (∀ i ∈ xs, p i = true) →
      (xs ++ ys).takeWhile p = xs ++ ys.takeWhile p
  | [], _ => rfl
  | i :: rest, h => by
    have hi : p i = true := h i (List.mem_cons_self i rest)
    have hr := takeWhile_append_of_forall ys
      (fun j hj => h j (List.mem_cons_of_mem i hj))
    simp [List.takeWhile_cons, hi, hr]

theorem takeWhile_append_of_exists {p : α → Bool} (ys : List α) :
    ∀ {xs : List α}, (∃ i ∈ xs, p i = false) →
      (xs ++ ys).takeWhile p = xs.takeWhile p
  | [], h => absurd h (by simp)
  | i :: rest, h => by
    by_cases hi : p i = true
    · have hrest : ∃ j ∈ rest, p j = false := by
        rcases h with ⟨j, hj, hjp⟩
        rcases List.mem_cons.mp hj with rfl | hjr
        · exact absurd hi (by simp [hjp])
        · exact ⟨j, hjr, hjp⟩
      have hr := takeWhile_append_of_exists ys hrest
      simp [List.takeWhile_cons, hi, hr]
    · have hi0 : p i = false := by
        cases hpi : p i
        · rfl
        · exact absurd hpi hi
      simp [List.takeWhile_cons, hi0]

theorem pagesRun_cons_error (created : α → Int) (since : Int) (e : ε)
    (rest : List (Except ε (List α))) :
    pagesRun created since (.error e :: rest) = ⟨[], some (.error e), 1⟩ :=
  rfl

theorem pagesRun_cons_ok_stop {created : α → Int} {since : Int}
    {items v : List α} (rest : List (Except ε (List α)))
    (h : pageScan created since items = (v, true)) :
    pagesRun created since (.ok items :: rest) = ⟨v, some (.ok ()), 1⟩ := by
  cases rest <;> simp [pagesRun, h]

theorem pagesRun_cons_ok_last {created : α → Int} {since : Int}
    {items v : List α} (h : pageScan created since items = (v, false)) :
    pagesRun created since ([.ok items] : List (Except ε (List α)))
      = ⟨v, some (.ok ()), 1⟩ := by
  simp [pagesRun, h]

theorem pagesRun_cons_ok_cont {created : α → Int} {since : Int}
    {items v : List α} (h : pageScan created since items = (v, false))
    (a : Except ε (List α)) (t : List (Except ε (List α))) :
    pagesRun created since (.ok items :: a :: t)
      = ⟨v ++ (pagesRun created since (a :: t)).visited,
         (pagesRun created since (a :: t)).outcome,
         (pagesRun created since (a :: t)).fetches + 1⟩ := by
  simp [pagesRun, h]

/-- The fuel-based Go loop, run against the fetcher realising the finite
response sequence `psE` and given enough fuel, agrees with the structural
recursion `pagesRun` over the responses not yet consumed. -/
theorem iterateSince_pagesFetcher (created : α → Int) (since : Int)
    (psE : List (Except ε (List α))) :
    ∀ fuel k, k < psE.length → psE.length - k ≤ fuel →
      iterateSince created (pagesFetcher psE) since fuel k
        = pagesRun created since (psE.drop k) := by
  intro fuel
  induction fuel with
  | zero => intro k hk hf; omega
  | succ fuel ih =>
    intro k hk hf
    have hget : psE[k]? = some psE[k] := List.getElem?_eq_getElem hk
    rw [List.drop_eq_getElem_cons hk]
    cases hpk : psE[k] with
    | error e =>
      rw [hpk] at hget
      have hfe : pagesFetcher psE k = .error e := by
        simp [pagesFetcher, hget]
      simp [iterateSince, hfe, pagesRun_cons_error]
    | ok items =>
      rw [hpk] at hget
      have hfo : pagesFetcher psE k
          = .ok (items, if k + 1 < psE.length then k + 1 else 0) := by
        simp [pagesFetcher, hget]
      cases hs : pageScan created since items with
      | mk v b =>
        cases b with
        | true =>
          simp [iterateSince, hfo, hs, pagesRun_cons_ok_stop _ hs]
        | false =>
          by_cases hlt : k + 1 < psE.length
          · have hrec := ih (k + 1) hlt (by omega)
            have hd : psE.drop (k + 1) ≠ [] := by
              intro hnil
              rw [List.drop_eq_nil_iff] at hnil
              omega
            cases he : psE.drop (k + 1) with
            | nil => exact absurd he hd
            | cons a t =>
              rw [he] at hrec
              simp [iterateSince, hfo, hs, hlt, hrec,
                pagesRun_cons_ok_cont hs a t]
          · have hz : (if k + 1 < psE.length then k + 1 else 0) = 0 := by
              simp [hlt]
            have he : psE.drop (k + 1) = [] := by
              rw [List.drop_eq_nil_iff]
              omega
            rw [he]
            simp [iterateSince, hfo, hs, hlt, pagesRun_cons_ok_last hs]

/-- Over an all-successful page sequence, the items visited are exactly
the longest prefix of the concatenated items that is not older than the
cutoff. -/
theorem pagesRun_ok_visited (created : α → Int) (since : Int) :
    ∀ ps : List (List α),
      (pagesRun created since (ps.map Except.ok) : IterResult α ε).visited
        = ps.flatten.takeWhile (fun i => !decide (created i < since)) := by
  intro ps
  induction ps with
  | nil => rfl
  | cons pg rest ih =>
    cases hany : pg.any (fun i => decide (created i < since)) with
    | true =>
      have hs : pageScan created since pg
          = (pg.takeWhile (fun i => !decide (created i < since)), true) := by
        rw [pageScan_eq, hany]
      rw [List.map_cons, pagesRun_cons_ok_stop _ hs, List.flatten_cons,
        takeWhile_append_of_exists]
      rcases List.any_eq_true.mp hany with ⟨j, hj, hjq⟩
      exact ⟨j, hj, by simp [hjq]⟩
    | false =>
      have hall : ∀ i ∈ pg, (!decide (created i < since)) = true := by
        intro i hi
        have := List.any_eq_false.mp hany i hi
        simp at this
        simp [this]
      have hs : pageScan created since pg = (pg, false) := by
        rw [pageScan_eq, hany, takeWhile_of_forall hall]
      cases rest with
      | nil => simp [pagesRun_cons_ok_last hs, takeWhile_of_forall hall]
      | cons r t =>
        rw [List.map_cons, List.map_cons, pagesRun_cons_ok_cont hs]
        rw [← List.map_cons]
        simp only [List.flatten_cons]
        rw [takeWhile_append_of_forall _ hall, ih, List.flatten_cons]

/-- Over an all-successful page sequence the traversal returns `nil`
(success). -/
theorem pagesRun_ok_outcome (created : α → Int) (since : Int) :
    ∀ ps : List (List α),
      (pagesRun created since (ps.map Except.ok) : IterResult α ε).outcome
        = some (.ok ()) := by
  intro ps
  induction ps with
  | nil => rfl
  | cons pg rest ih =>
    cases hs : pageScan created since pg with
    | mk v b =>
      cases b with
      | true => rw [List.map_cons, pagesRun_cons_ok_stop _ hs]
      | false =>
        cases rest with
        | nil =>
          simp only [List.map_cons, List.map_nil]
          rw [pagesRun_cons_ok_last hs]
        | cons r t =>
          rw [List.map_cons, List.map_cons, pagesRun_cons_ok_cont hs,
            ← List.map_cons]
          exact ih

/-- Number of fetches over an all-successful nonempty page sequence: one
per page up to and including the first page holding an item older than the
cutoff, and one per page when no such item exists. -/
theorem pagesRun_ok_fetches (created : α → Int) (since : Int) :
    ∀ ps : List (List α), ps ≠ [] →
      (pagesRun created since (ps.map Except.ok) : IterResult α ε).fetches
        = min ps.length
            (ps.findIdx (fun pg => pg.any fun i => decide (created i < since))
              + 1) := by
  intro ps
  induction ps with
  | nil => intro h; exact absurd rfl h
  | cons pg rest ih =>
    intro _
    cases hany : pg.any (fun i => decide (created i < since)) with
    | true =>
      have hs : pageScan created since pg
          = (pg.takeWhile (fun i => !decide (created i < since)), true) := by
        rw [pageScan_eq, hany]
      rw [List.map_cons, pagesRun_cons_ok_stop _ hs, List.findIdx_cons, hany]
      simp
    | false =>
      have hall : ∀ i ∈ pg, (!decide (created i < since)) = true := by
        intro i hi
        have := List.any_eq_false.mp hany i hi
        simp at this
        simp [this]
      have hs : pageScan created since pg = (pg, false) := by
        rw [pageScan_eq, hany, takeWhile_of_forall hall]
      rw [List.findIdx_cons, hany]
      cases rest with
      | nil =>
        simp only [List.map_cons, List.map_nil]
        rw [pagesRun_cons_ok_last hs]
        rfl
      | cons r t =>
        rw [List.map_cons, List.map_cons, pagesRun_cons_ok_cont hs,
          ← List.map_cons, ih (by simp)]
        simp only [List.length_cons, cond_false]
        omega

/-- A run over successful pages holding no item older than the cutoff,
followed by a failing fetch: every earlier item is visited, the error is
returned as-is, and nothing after the failing fetch is requested. -/
theorem pagesRun_error_suffix (created : α → Int) (since : Int) (e : ε)
    (rest : List (Except ε (List α))) :
    ∀ okps : List (List α), (∀ i ∈ okps.flatten, ¬(created i < since)) →
      pagesRun created since (okps.map Except.ok ++ .error e :: rest)
        = ⟨okps.flatten, some (.error e), okps.length + 1⟩ := by
  intro okps
  induction okps with
  | nil => intro _; simp [pagesRun_cons_error]
  | cons pg t ih =>
    intro hnew
    have hall : ∀ i ∈ pg, (!decide (created i < since)) = true := by
      intro i hi
      have := hnew i (by simp [List.flatten_cons, hi])
      simp [this]
    have hany : pg.any (fun i => decide (created i < since)) = false := by
      rw [List.any_eq_false]
      intro i hi
      have := hnew i (by simp [List.flatten_cons, hi])
      simp [this]
    have hs : pageScan created since pg = (pg, false) := by
      rw [pageScan_eq, hany, takeWhile_of_forall hall]
    have htail := ih (fun i hi => hnew i (by simp [List.flatten_cons, hi]))
    rw [List.map_cons, List.cons_append]
    cases hmt : t.map Except.ok ++ .error e :: rest with
    | nil => simp at hmt
    | cons a tl =>
      rw [pagesRun_cons_ok_cont hs, ← hmt, htail]
      simp [List.flatten_cons]

/-- Master description of a run over an all-successful, nonempty finite
page sequence, given enough fuel: the visit trace is the longest
new-enough prefix of the concatenated items, the run succeeds, and pages
are fetched up to the first stopping page (all of them when nothing is
older than the cutoff). -/
theorem iterateSince_okPages (created : α → Int) (since : Int)
    (ps : List (List α)) (fuel : Nat) (hne : ps ≠ [])
    (hfuel : ps.length ≤ fuel) :
    iterateSince created (okPagesFetcher (ε := ε) ps) since fuel 0
      = ⟨ps.flatten.takeWhile (fun i => !decide (created i < since)),
         some (.ok ()),
         min ps.length
           (ps.findIdx (fun pg => pg.any fun i => decide (created i < since))
             + 1)⟩ := by
  have h0 : 0 < (ps.map (Except.ok (ε := ε))).length := by
    rw [List.length_map]
    exact List.length_pos.mpr hne
  have hcorr := iterateSince_pagesFetcher created since (ps.map Except.ok)
    fuel 0 h0 (by rw [List.length_map]; omega)
  rw [okPagesFetcher, hcorr, List.drop_zero]
  have hv := pagesRun_ok_visited (ε := ε) created since ps
  have ho := pagesRun_ok_outcome (ε := ε) created since ps
  have hf := pagesRun_ok_fetches (ε := ε) created since ps hne
  cases hrun : pagesRun created since (ps.map (Except.ok (ε := ε))) with
  | mk v o n =>
    rw [hrun] at hv ho hf
    simp only at hv ho hf
    rw [hv, ho, hf]

/-- Two extensionally equal fetchers drive the traversal to identical
results (same trace, same outcome, same fetch count). -/
theorem iterateSince_congr (created : α → Int)
    (f g : Nat → Except ε (List α × Nat)) (since : Int)
    (hfg : ∀ p, f p = g p) :
    ∀ fuel page, iterateSince created f since fuel page
      = iterateSince created g since fuel page := by
  intro fuel
  induction fuel with
  | zero => intro _; rfl
  | succ fuel ih =>
    intro page
    cases hg : g page with
    | error e => simp [iterateSince, hfg page, hg]
    | ok pr =>
      cases pr with
      | mk items next =>
        cases hs : pageScan created since items with
        | mk v b =>
          cases b with
          | true => simp [iterateSince, hfg page, hg, hs]
          | false =>
            by_cases h : next = 0
            · simp [iterateSince, hfg page, hg, hs, h]
            · simp [iterateSince, hfg page, hg, hs, h, ih next]

/-- The cutoff guard runs before the callback, so no visited item is
older than the cutoff — for any fetcher whatsoever. -/
theorem iterateSince_visited_not_old (created : α → Int)
    (f : Nat → Except ε (List α × Nat)) (since : Int) :
    ∀ fuel page i, i ∈ (iterateSince created f since fuel page).visited →
      ¬(created i < since) := by
  intro fuel
  induction fuel with
  | zero => intro page i hi; simp [iterateSince] at hi
  | succ fuel ih =>
    intro page i hi
    cases hf : f page with
    | error e => simp [iterateSince, hf] at hi
    | ok pr =>
      cases pr with
      | mk items next =>
        have hscan : ∀ j ∈ (pageScan created since items).1,
            ¬(created j < since) := by
          intro j hj
          rw [pageScan_eq] at hj
          have := List.mem_takeWhile_imp hj
          simpa using this
        cases hs : pageScan created since items with
        | mk v b =>
          rw [hs] at hscan
          cases b with
          | true =>
            simp only [iterateSince, hf, hs] at hi
            exact hscan i hi
          | false =>
            by_cases h : next = 0
            · simp only [iterateSince, hf, hs, if_pos h] at hi
              exact hscan i hi
            · simp only [iterateSince, hf, hs, if_neg h,
                List.mem_append] at hi
              rcases hi with hi | hi
              · exact hscan i hi
              · exact ih next i hi

/-- If the next-page cursor chain from `page` reaches an un-continuable
response (error, cutoff stop, or "no next page") within `n` fetches, the
traversal run with fuel `n` finishes (returns), making at most `n`
fetches. -/
theorem iterateSince_chainEnds (created : α → Int)
    (f : Nat → Except ε (List α × Nat)) (since : Int) :
    ∀ n page, chainEnds created f since page n = true →
      (iterateSince created f since n page).outcome.isSome = true
      ∧ (iterateSince created f since n page).fetches ≤ n := by
  intro n
  induction n with
  | zero => intro page h; simp [chainEnds] at h
  | succ n ih =>
    intro page h
    rw [chainEnds] at h
    cases hf : f page with
    | error e => simp [iterateSince, hf]
    | ok pr =>
      cases pr with
      | mk items next =>
        rw [hf] at h
        cases hs : pageScan created since items with
        | mk v b =>
          simp only [hs] at h
          cases b with
          | true => simp [iterateSince, hf, hs]
          | false =>
            by_cases hz : next = 0
            · simp [iterateSince, hf, hs, hz]
            · have hnext : chainEnds created f since next n = true := by
                simp only [hz] at h
                simpa using h
              obtain ⟨h1, h2⟩ := ih next hnext
              simp only [iterateSince, hf, hs, if_neg hz]
              exact ⟨h1, by omega⟩

/-! ## Sample data for concrete instantiations -/

def sampleUser : User := ⟨"alice", "https://example.org/alice"⟩

def issueAt (n : Nat) (t : Int) : Issue :=
  ⟨n, "an issue", "https://example.org/i", sampleUser, t⟩

def prAt (n : Nat) (t : Int) : PullRequest :=
  ⟨n, "a pull request", "https://example.org/p", sampleUser, t⟩

/-- Strictly descending creation dates, as an executable predicate on an
item sequence. -/
def descendingBy (created : α → Int) : List α → Bool
  | [] => true
  | [_] => true
  | a :: b :: t => decide (created b < created a) && descendingBy created (b :: t)

/-! ## Claims -/

/-- C1: over page sequences whose concatenated items strictly descend in
creation date, the traversal — issues and pull requests alike — invokes
the callback, in order, on exactly the items up to (and excluding) the
first one created strictly before the cutoff, never touching that item or
anything after it, and returns success. -/
theorem C1_desc_cutoff_halt (since : Int) (fuel : Nat)
    (ps : List (List Issue)) (qs : List (List PullRequest))
    (hpne : ps ≠ []) (hpfuel : ps.length ≤ fuel)
    (hpdesc : descendingBy Issue.createdAt ps.flatten = true)
    (hqne : qs ≠ []) (hqfuel : qs.length ≤ fuel)
    (hqdesc : descendingBy PullRequest.createdAt qs.flatten = true) :
    (iterateIssues (okPagesFetcher (ε := ε) ps) since fuel 0).visited
        = ps.flatten.takeWhile (fun i => !decide (i.createdAt < since))
      ∧ (iterateIssues (okPagesFetcher (ε := ε) ps) since fuel 0).outcome
        = some (.ok ())
      ∧ (iteratePullRequests (okPagesFetcher (ε := ε) qs) since fuel 0).visited
        = qs.flatten.takeWhile (fun i => !decide (i.createdAt < since))
      ∧ (iteratePullRequests (okPagesFetcher (ε := ε) qs) since fuel 0).outcome
        = some (.ok ()) := by
  rw [iterateIssues, iteratePullRequests,
    iterateSince_okPages Issue.createdAt since ps fuel hpne hpfuel,
    iterateSince_okPages PullRequest.createdAt since qs fuel hqne hqfuel]
  exact ⟨rfl, rfl, rfl, rfl⟩

/-- Witness for C1: two descending pages, cutoff between the two items. -/
theorem C1_desc_cutoff_halt_witness :
    (iterateIssues (okPagesFetcher (ε := Unit) [[issueAt 1 5], [issueAt 2 1]])
        3 2 0).visited
      = ([[issueAt 1 5], [issueAt 2 1]] : List (List Issue)).flatten.takeWhile
          (fun i => !decide (i.createdAt < 3))
    ∧ (iterateIssues (okPagesFetcher (ε := Unit) [[issueAt 1 5], [issueAt 2 1]])
        3 2 0).outcome = some (.ok ())
    ∧ (iteratePullRequests (okPagesFetcher (ε := Unit) [[prAt 1 5], [prAt 2 1]])
        3 2 0).visited
      = ([[prAt 1 5], [prAt 2 1]] : List (List PullRequest)).flatten.takeWhile
          (fun i => !decide (i.createdAt < 3))
    ∧ (iteratePullRequests (okPagesFetcher (ε := Unit) [[prAt 1 5], [prAt 2 1]])
        3 2 0).outcome = some (.ok ()) :=
  C1_desc_cutoff_halt 3 2 [[issueAt 1 5], [issueAt 2 1]] [[prAt 1 5], [prAt 2 1]]
    (by decide) (by decide) (by decide) (by decide) (by decide) (by decide)

/-- C2: a failing fetch aborts the traversal at once and the error is
returned unchanged: callback invocations already made for earlier pages
stand, no item of the failing fetch is visited, and no page after it is
fetched (even with fuel to spare) — for both traversals. -/
theorem C2_fetch_error_aborts (since : Int) (fuel : Nat) (e : ε)
    (okps : List (List Issue)) (rest : List (Except ε (List Issue)))
    (okqs : List (List PullRequest))
    (restq : List (Except ε (List PullRequest)))
    (hpnew : ∀ i ∈ okps.flatten, ¬(i.createdAt < since))
    (hpfuel : okps.length + 1 + rest.length ≤ fuel)
    (hqnew : ∀ i ∈ okqs.flatten, ¬(i.createdAt < since))
    (hqfuel : okqs.length + 1 + restq.length ≤ fuel) :
    iterateIssues (pagesFetcher (okps.map Except.ok ++ .error e :: rest))
        since fuel 0
      = ⟨okps.flatten, some (.error e), okps.length + 1⟩
    ∧ iteratePullRequests
        (pagesFetcher (okqs.map Except.ok ++ .error e :: restq)) since fuel 0
      = ⟨okqs.flatten, some (.error e), okqs.length + 1⟩ := by
  constructor
  · rw [iterateIssues,
      iterateSince_pagesFetcher Issue.createdAt since _ fuel 0
        (by simp) (by simp; omega),
      List.drop_zero, pagesRun_error_suffix Issue.createdAt since e rest okps hpnew]
  · rw [iteratePullRequests,
      iterateSince_pagesFetcher PullRequest.createdAt since _ fuel 0
        (by simp) (by simp; omega),
      List.drop_zero,
      pagesRun_error_suffix PullRequest.createdAt since e restq okqs hqnew]

/-- Witness for C2: one successful page, then a failing fetch, with fuel
left over. -/
theorem C2_fetch_error_aborts_witness :
    iterateIssues
        (pagesFetcher (([[issueAt 1 5]] : List (List Issue)).map Except.ok
          ++ .error "boom" :: [])) 3 5 0
      = ⟨([[issueAt 1 5]] : List (List Issue)).flatten, some (.error "boom"),
         ([[issueAt 1 5]] : List (List Issue)).length + 1⟩
    ∧ iteratePullRequests
        (pagesFetcher (([[prAt 1 5]] : List (List PullRequest)).map Except.ok
          ++ .error "boom" :: [])) 3 5 0
      = ⟨([[prAt 1 5]] : List (List PullRequest)).flatten, some (.error "boom"),
         ([[prAt 1 5]] : List (List PullRequest)).length + 1⟩ :=
  C2_fetch_error_aborts 3 5 "boom" [[issueAt 1 5]] [] [[prAt 1 5]] []
    (by decide) (by decide) (by decide) (by decide)

/-- C3: with the cutoff strictly earlier than every item's creation date,
the traversal fetches every page, invokes the callback exactly once per
item, in order, across all pages, and returns success. -/
theorem C3_full_traversal (since : Int) (fuel : Nat) (ps : List (List Issue))
    (hne : ps ≠ []) (hfuel : ps.length ≤ fuel)
    (hall : ∀ i ∈ ps.flatten, since < i.createdAt) :
    (iterateIssues (okPagesFetcher (ε := ε) ps) since fuel 0).visited
        = ps.flatten
      ∧ (iterateIssues (okPagesFetcher (ε := ε) ps) since fuel 0).outcome
        = some (.ok ())
      ∧ (iterateIssues (okPagesFetcher (ε := ε) ps) since fuel 0).fetches
        = ps.length := by
  rw [iterateIssues, iterateSince_okPages Issue.createdAt since ps fuel hne hfuel]
  refine ⟨?_, rfl, ?_⟩
  · exact takeWhile_of_forall (fun i hi => by
      have := hall i hi
      simp only [Bool.not_eq_true', decide_eq_false_iff_not]
      omega)
  · show min ps.length
        (ps.findIdx (fun pg => pg.any fun i => decide (i.createdAt < since))
          + 1) = ps.length
    have hidx : ps.findIdx
        (fun pg => pg.any fun i => decide (i.createdAt < since))
          = ps.length := by
      rw [List.findIdx_eq_length]
      intro pg hpg
      rw [List.any_eq_false]
      intro i hi
      have := hall i (List.mem_flatten.mpr ⟨pg, hpg, hi⟩)
      simp only [decide_eq_true_eq]
      omega
    rw [hidx]
    omega

/-- Witness for C3: cutoff below both items, both pages fetched, both
items visited. -/
theorem C3_full_traversal_witness :
    (iterateIssues (okPagesFetcher (ε := Unit) [[issueAt 1 5], [issueAt 2 4]])
        3 2 0).visited
      = ([[issueAt 1 5], [issueAt 2 4]] : List (List Issue)).flatten
    ∧ (iterateIssues (okPagesFetcher (ε := Unit) [[issueAt 1 5], [issueAt 2 4]])
        3 2 0).outcome = some (.ok ())
    ∧ (iterateIssues (okPagesFetcher (ε := Unit) [[issueAt 1 5], [issueAt 2 4]])
        3 2 0).fetches
      = ([[issueAt 1 5], [issueAt 2 4]] : List (List Issue)).length :=
  C3_full_traversal 3 2 [[issueAt 1 5], [issueAt 2 4]]
    (by decide) (by decide) (by decide)

/-- C4: with every item created strictly before the cutoff, the callback
is never invoked and the traversal returns success. -/
theorem C4_future_cutoff (since : Int) (fuel : Nat) (ps : List (List Issue))
    (hne : ps ≠ []) (hfuel : ps.length ≤ fuel)
    (hold : ∀ i ∈ ps.flatten, i.createdAt < since) :
    (iterateIssues (okPagesFetcher (ε := ε) ps) since fuel 0).visited = []
      ∧ (iterateIssues (okPagesFetcher (ε := ε) ps) since fuel 0).outcome
        = some (.ok ()) := by
  rw [iterateIssues, iterateSince_okPages Issue.createdAt since ps fuel hne hfuel]
  refine ⟨?_, rfl⟩
  exact takeWhile_eq_nil_of_forall (fun i hi => by
    have := hold i hi
    simp [this])

/-- Witness for C4: a single old item, zero callback invocations. -/
theorem C4_future_cutoff_witness :
    (iterateIssues (okPagesFetcher (ε := Unit) [[issueAt 1 1]]) 3 1 0).visited
        = []
      ∧ (iterateIssues (okPagesFetcher (ε := Unit) [[issueAt 1 1]]) 3 1 0).outcome
        = some (.ok ()) :=
  C4_future_cutoff 3 1 [[issueAt 1 1]] (by decide) (by decide) (by decide)

/-- C5, as stated, fails on the code: the loop only stops on a cutoff hit
or on `NextPage = 0`. An empty first page whose response still advertises
a next page does not end the traversal — here the second page is fetched
(2 fetches) and its item is passed to the callback (nonempty trace). -/
theorem C5_counterexample :
    (iterateIssues (okPagesFetcher (ε := Unit) [[], [issueAt 1 10]])
        0 2 0).visited ≠ []
    ∧ (iterateIssues (okPagesFetcher (ε := Unit) [[], [issueAt 1 10]])
        0 2 0).fetches = 2 := by
  constructor
  · decide
  · decide

/-- C5 amended: if the first fetch returns an empty page **and** reports
no next page, the traversal terminates immediately: success, zero
callback invocations, and exactly one fetch. -/
theorem C5_empty_first_page (f : Nat → Except ε (List Issue × Nat))
    (since : Int) (fuel : Nat) (hf : f 0 = .ok ([], 0)) (hfuel : 1 ≤ fuel) :
    iterateIssues f since fuel 0 = ⟨[], some (.ok ()), 1⟩ := by
  cases fuel with
  | zero => omega
  | succ fuel => simp [iterateIssues, iterateSince, hf, pageScan]

/-- Witness for the amended C5: a one-page sequence whose only page is
empty. -/
theorem C5_empty_first_page_witness :
    iterateIssues (okPagesFetcher (ε := Unit) [([] : List Issue)]) 7 1 0
      = ⟨[], some (.ok ()), 1⟩ :=
  C5_empty_first_page (okPagesFetcher (ε := Unit) [([] : List Issue)]) 7 1
    rfl (by decide)

/-- C6: the cutoff bound is inclusive. An item created exactly at the
cutoff instant — preceded only by items not older than the cutoff — is
passed to the callback and traversal continues past it into the rest of
the sequence; only a strictly older item triggers the stop. -/
theorem C6_cutoff_inclusive (since : Int) (fuel : Nat)
    (ps : List (List Issue)) (xs ys : List Issue) (i : Issue)
    (hne : ps ≠ []) (hfuel : ps.length ≤ fuel)
    (hsplit : ps.flatten = xs ++ i :: ys)
    (heq : i.createdAt = since)
    (hxs : ∀ j ∈ xs, ¬(j.createdAt < since)) :
    (iterateIssues (okPagesFetcher (ε := ε) ps) since fuel 0).visited
      = xs ++ i :: ys.takeWhile (fun j => !decide (j.createdAt < since)) := by
  rw [iterateIssues, iterateSince_okPages Issue.createdAt since ps fuel hne hfuel]
  show ps.flatten.takeWhile (fun j => !decide (j.createdAt < since)) = _
  rw [hsplit,
    takeWhile_append_of_forall _ (fun j hj => by simp [hxs j hj])]
  simp [List.takeWhile_cons, heq]

/-- Witness for C6: the middle item sits exactly at the cutoff and is
still visited, as is the at-cutoff item after it. -/
theorem C6_cutoff_inclusive_witness :
    (iterateIssues
        (okPagesFetcher (ε := Unit)
          [[issueAt 1 5, issueAt 2 3], [issueAt 3 3, issueAt 4 1]]) 3 2 0).visited
      = [issueAt 1 5] ++ issueAt 2 3 ::
          ([issueAt 3 3, issueAt 4 1] : List Issue).takeWhile
            (fun j => !decide (j.createdAt < 3)) :=
  C6_cutoff_inclusive 3 2 [[issueAt 1 5, issueAt 2 3], [issueAt 3 3, issueAt 4 1]]
    [issueAt 1 5] [issueAt 3 3, issueAt 4 1] (issueAt 2 3)
    (by decide) (by decide) (by decide) (by decide) (by decide)

/-- C7: a collection whose size is an exact multiple of the page size
(every returned page full at `GitHubMaxItemsPerPage` items, none older
than the cutoff) terminates with the page that reports no next page:
success, and exactly one fetch per page — no extra fetch of an empty page
beyond it. -/
theorem C7_no_extra_fetch (since : Int) (fuel : Nat) (ps : List (List Issue))
    (hne : ps ≠ []) (hfuel : ps.length ≤ fuel)
    (hsize : ∀ pg ∈ ps, pg.length = GitHubMaxItemsPerPage)
    (hnew : ∀ i ∈ ps.flatten, ¬(i.createdAt < since)) :
    (iterateIssues (okPagesFetcher (ε := ε) ps) since fuel 0).outcome
        = some (.ok ())
      ∧ (iterateIssues (okPagesFetcher (ε := ε) ps) since fuel 0).fetches
        = ps.length := by
  rw [iterateIssues, iterateSince_okPages Issue.createdAt since ps fuel hne hfuel]
  refine ⟨rfl, ?_⟩
  show min ps.length
      (ps.findIdx (fun pg => pg.any fun i => decide (i.createdAt < since))
        + 1) = ps.length
  have hidx : ps.findIdx
      (fun pg => pg.any fun i => decide (i.createdAt < since)) = ps.length := by
    rw [List.findIdx_eq_length]
    intro pg hpg
    rw [List.any_eq_false]
    intro i hi
    have := hnew i (List.mem_flatten.mpr ⟨pg, hpg, hi⟩)
    simpa using this
  rw [hidx]
  omega

/-- Witness for C7: one full page of 100 items, exactly one fetch. -/
theorem C7_no_extra_fetch_witness :
    (iterateIssues (okPagesFetcher (ε := Unit) [List.replicate 100 (issueAt 1 5)])
        3 1 0).outcome = some (.ok ())
    ∧ (iterateIssues (okPagesFetcher (ε := Unit) [List.replicate 100 (issueAt 1 5)])
        3 1 0).fetches
      = ([List.replicate 100 (issueAt 1 5)] : List (List Issue)).length :=
  C7_no_extra_fetch 3 1 [List.replicate 100 (issueAt 1 5)]
    (by simp) (by simp)
    (by
      intro pg hpg
      simp only [List.mem_singleton] at hpg
      simp [hpg, GitHubMaxItemsPerPage])
    (by
      intro i hi
      simp only [List.flatten_cons, List.flatten_nil, List.append_nil] at hi
      rcases List.eq_of_mem_replicate hi with rfl
      decide)

/-- C8: determinism/idempotence — two runs with the same cutoff against
extensionally identical page responses produce identical results: same
visited items, same order, same count, same outcome — for both
traversals. -/
theorem C8_deterministic (since : Int) (fuel page : Nat)
    (f g : Nat → Except ε (List Issue × Nat))
    (f2 g2 : Nat → Except ε (List PullRequest × Nat))
    (hfg : ∀ p, f p = g p) (hfg2 : ∀ p, f2 p = g2 p) :
    iterateIssues f since fuel page = iterateIssues g since fuel page
    ∧ iteratePullRequests f2 since fuel page
      = iteratePullRequests g2 since fuel page :=
  ⟨iterateSince_congr Issue.createdAt f g since hfg fuel page,
   iterateSince_congr PullRequest.createdAt f2 g2 since hfg2 fuel page⟩

/-- Witness for C8: the same one-page collection presented through two
syntactically different but pointwise-equal fetchers. -/
theorem C8_deterministic_witness :
    iterateIssues (okPagesFetcher (ε := Unit) [[issueAt 1 5]]) 3 1 0
      = iterateIssues
          (fun p => pagesFetcher (([[issueAt 1 5]] : List (List Issue)).map
            Except.ok) p) 3 1 0
    ∧ iteratePullRequests (okPagesFetcher (ε := Unit) [[prAt 1 5]]) 3 1 0
      = iteratePullRequests
          (fun p => pagesFetcher (([[prAt 1 5]] : List (List PullRequest)).map
            Except.ok) p) 3 1 0 :=
  C8_deterministic 3 1 0 _ _ _ _ (fun _ => rfl) (fun _ => rfl)

/-- C9: unconditionally — whatever the fetcher returns, in whatever
order — the callback is never invoked on an item created strictly before
the cutoff, because the guard precedes the invocation. -/
theorem C9_no_old_visits (since : Int) (fuel page : Nat)
    (f : Nat → Except ε (List Issue × Nat))
    (f2 : Nat → Except ε (List PullRequest × Nat))
    (i : Issue) (j : PullRequest)
    (hi : i ∈ (iterateIssues f since fuel page).visited)
    (hj : j ∈ (iteratePullRequests f2 since fuel page).visited) :
    ¬(i.createdAt < since) ∧ ¬(j.createdAt < since) :=
  ⟨iterateSince_visited_not_old Issue.createdAt f since fuel page i hi,
   iterateSince_visited_not_old PullRequest.createdAt f2 since fuel page j hj⟩

/-- Witness for C9, on pages that are *not* in descending order. -/
theorem C9_no_old_visits_witness :
    ¬((issueAt 1 4).createdAt < 3) ∧ ¬((prAt 1 4).createdAt < 3) :=
  C9_no_old_visits 3 1 0
    (okPagesFetcher (ε := Unit) [[issueAt 1 4, issueAt 2 9]])
    (okPagesFetcher (ε := Unit) [[prAt 1 4, prAt 2 9]])
    (issueAt 1 4) (prAt 1 4) (by decide) (by decide)

/-- C10: whenever the next-page cursor chain from the start page reaches
a terminal response — "no next page", an error, or a page with an item
older than the cutoff — within `n` fetches, the traversal (run with fuel
`n`) terminates, and it makes at most `n` fetches. -/
theorem C10_terminates (since : Int) (page n : Nat)
    (f : Nat → Except ε (List Issue × Nat))
    (f2 : Nat → Except ε (List PullRequest × Nat))
    (hc : chainEnds Issue.createdAt f since page n = true)
    (hc2 : chainEnds PullRequest.createdAt f2 since page n = true) :
    ((iterateIssues f since n page).outcome.isSome = true
      ∧ (iterateIssues f since n page).fetches ≤ n)
    ∧ ((iteratePullRequests f2 since n page).outcome.isSome = true
      ∧ (iteratePullRequests f2 since n page).fetches ≤ n) :=
  ⟨iterateSince_chainEnds Issue.createdAt f since n page hc,
   iterateSince_chainEnds PullRequest.createdAt f2 since n page hc2⟩

/-- Witness for C10: a two-page chain ending in `NextPage = 0` within two
fetches. -/
theorem C10_terminates_witness :
    ((iterateIssues (okPagesFetcher (ε := Unit) [[issueAt 1 5], [issueAt 2 4]])
        3 2 0).outcome.isSome = true
      ∧ (iterateIssues (okPagesFetcher (ε := Unit) [[issueAt 1 5], [issueAt 2 4]])
          3 2 0).fetches ≤ 2)
    ∧ ((iteratePullRequests (okPagesFetcher (ε := Unit) [[prAt 1 5]])
        3 2 0).outcome.isSome = true
      ∧ (iteratePullRequests (okPagesFetcher (ε := Unit) [[prAt 1 5]])
          3 2 0).fetches ≤ 2) :=
  C10_terminates 3 0 2
    (okPagesFetcher (ε := Unit) [[issueAt 1 5], [issueAt 2 4]])
    (okPagesFetcher (ε := Unit) [[prAt 1 5]])
    (by decide) (by decide)

end Ghdump
